import Mathlib

/-!
Shallow embedding of `src/financial_metrics_updater.py` (class
`FinancialMetricsUpdater`): candidate selection, error classification,
per-ticker metric computation, the batch fetch loop, and the update
orchestration (`process_updates`).  Numeric provider values are modelled as
rationals, timestamps as integers, and the two external collaborators
(the market-data provider's `stock.info` call and `datetime.strptime`) as
explicit function parameters.  Python exceptions are modelled by explicit
error values; a Python local variable that may be read before assignment is
modelled as an `Option` that starts out `none`.
-/

namespace FinMet

/-! ## Python value helpers -/

/-- Truthiness of an optional float in Python: `None` and `0.0` are falsy,
every other float is truthy. -/
def pyTruthy : Option ℚ → Bool
  | none => false
  | some x => decide (x ≠ 0)

/-- Python `a or b` on optional floats: `a` when `a` is truthy, else `b`. -/
def pyOr (a b : Option ℚ) : Option ℚ :=
  if pyTruthy a then a else b

/-- Python `v is not None and v != 0`, as used in the fair-value guard
`all(v is not None and v != 0 for v in [current_price, evebitda])`. -/
def notNoneNonzero : Option ℚ → Bool
  | none => false
  | some x => decide (x ≠ 0)

/-- Rendering of an optional Python string inside an f-string:
`None` renders as the text `None`. -/
def pyShowOptStr : Option String → String
  | none => "None"
  | some s => s

/-- Whether the character list `pat` occurs contiguously inside `l`
(Python `pat in s` on strings). -/
def hasInfixChars (pat : List Char) : List Char → Bool
  | [] => pat.isPrefixOf []
  | c :: rest => pat.isPrefixOf (c :: rest) || hasInfixChars pat rest

/-- Python `pat in s` for strings. -/
def strContains (s pat : String) : Bool :=
  hasInfixChars pat.data s.data

/-- Python `s.lower()` (ASCII case folding, applied to the sheet's
active-flag cells). -/
def pyLower (s : String) : String :=
  String.mk (s.data.map Char.toLower)

/-- Python `s.strip()`: leading and trailing whitespace removed. -/
def pyStrip (s : String) : String :=
  String.mk (((s.data.dropWhile Char.isWhitespace).reverse.dropWhile
    Char.isWhitespace).reverse)

/-- Python `', '.join(l)`. -/
def joinComma : List String → String
  | [] => ""
  | [s] => s
  | s :: rest => s ++ ", " ++ joinComma rest

/-! ## Exceptions

The exception values this program can raise or receive:
`requests.exceptions.HTTPError` (whose HTTP status code, when a response is
attached, lives at `error.response.status_code`), a plain `Exception`
carrying a message (the validation and missing-metrics errors raised inside
`get_metrics_batch`), and the `UnboundLocalError` the interpreter raises
when a local variable is read before any assignment. -/

inductive PyError where
  | httpError (response : Option ℕ) (msg : String)
  | exc (msg : String)
  | unboundLocal (name : String)
deriving DecidableEq, Repr

/-- Python `str(error)`: the message carried by the exception. -/
def PyError.str : PyError → String
  | .httpError _ msg => msg
  | .exc msg => msg
  | .unboundLocal name => "cannot access local variable " ++ name

/-- A Python value reaching `should_blacklist` / `_check_rate_limit`:
either an exception object, or a plain `str` (in `process_updates` the
error stored in `failed_results` is `str(e)`, and that string is what gets
passed to `should_blacklist`). -/
inductive PyVal where
  | exc (e : PyError)
  | pstr (s : String)
deriving DecidableEq, Repr

/-- Python `str(value)` for the values of `PyVal` (`str` of a string is
itself). -/
def PyVal.str : PyVal → String
  | .exc e => e.str
  | .pstr s => s

/-- Python `isinstance(error, HTTPError)`. -/
def PyVal.isHTTPError : PyVal → Bool
  | .exc (.httpError _ _) => true
  | _ => false

/-- The attached response's status code of an `HTTPError`, when the value is
one and a response is attached (`error.response.status_code`). -/
def PyVal.responseStatus : PyVal → Option ℕ
  | .exc (.httpError r _) => r
  | _ => none

/-- Python `hasattr(error, 'status_code')` for the values that reach
`should_blacklist` in this program.  `requests.exceptions.HTTPError` keeps
the status code on `error.response.status_code` and has no `status_code`
attribute of its own; a plain `Exception` and a `str` have none either.  So
the attribute lookup fails on every value this program ever passes in. -/
def hasattrStatusCode : PyVal → Bool
  | .exc (.httpError _ _) => false
  | .exc (.exc _) => false
  | .exc (.unboundLocal _) => false
  | .pstr _ => false

/-- The `status_code` attribute's value; unreachable for this program's
values since `hasattrStatusCode` is never true (see above). -/
def statusCodeAttr : PyVal → ℕ
  | _ => 0

/-- Lines 24-30: `self.temporary_error_codes`. -/
def temporary_error_codes : List ℕ := [429, 500, 502, 503, 504]

/-- Lines 206-213: `_check_rate_limit`.  True when the value is an
`HTTPError` whose attached response has status 429, or when the text `429`
occurs in `str(error)`. -/
def _check_rate_limit (error : PyVal) : Bool :=
  (error.isHTTPError && error.responseStatus == some 429) || strContains error.str "429"

/-- Lines 65-76: `should_blacklist`.  Rate limits are never blacklisted;
then the `status_code` attribute is consulted when present (it never is for
this program's error values, see `hasattrStatusCode`); every other error
blacklists. -/
def should_blacklist (error : PyVal) : Bool :=
  if _check_rate_limit error then false
  else if hasattrStatusCode error then
    decide (statusCodeAttr error ∉ temporary_error_codes)
  else true

/-! ## Provider response and derived metrics -/

/-- The fields of the provider's `stock.info` map that the program reads.
Every field is optional: `info.get(k)` yields `None` for an absent key. -/
structure Info where
  quoteType : Option String := none
  currency : Option String := none
  financialCurrency : Option String := none
  country : Option String := none
  freeCashflow : Option ℚ := none
  marketCap : Option ℚ := none
  currentPrice : Option ℚ := none
  regularMarketPrice : Option ℚ := none
  previousClose : Option ℚ := none
  openPrice : Option ℚ := none
  fiftyDayAverage : Option ℚ := none
  returnOnEquity : Option ℚ := none
  priceToBook : Option ℚ := none
  currentRatio : Option ℚ := none
  debtToEquity : Option ℚ := none
  profitMargins : Option ℚ := none
  returnOnAssets : Option ℚ := none
  revenueGrowth : Option ℚ := none
  enterpriseToEbitda : Option ℚ := none
  quickRatio : Option ℚ := none
  trailingPegRatio : Option ℚ := none
deriving DecidableEq, Repr

/-- Line 262: `metrics['fcf_yield'] = (fcf / market_cap) if (fcf and
market_cap and market_cap != 0) else None`. -/
def fcf_yield_calc (fcf market_cap : Option ℚ) : Option ℚ :=
  if pyTruthy fcf && pyTruthy market_cap && !(market_cap == some 0) then
    some (fcf.getD 0 / market_cap.getD 0)
  else none

/-- Lines 253-259: `current_price`, the `or`-chain over the five price
fields (left associated, as Python evaluates it). -/
def currentPriceOf (info : Info) : Option ℚ :=
  pyOr (pyOr (pyOr (pyOr info.currentPrice info.regularMarketPrice) info.previousClose)
    info.openPrice) info.fiftyDayAverage

/-- Lines 273-284: the fair-value computation from `current_price`, the
EV/EBITDA multiple and the trailing PEG ratio. -/
def fair_value_calc (current_price evebitda peg : Option ℚ) : Option ℚ :=
  if notNoneNonzero current_price && notNoneNonzero evebitda then
    let cp := current_price.getD 0
    let ev := evebitda.getD 0
    let evebitda_implied := cp * (15 / ev)
    if pyTruthy peg && !(peg == some 0) then
      let peg_implied := cp * (2.0 / peg.getD 0)
      some (evebitda_implied * 0.6 + peg_implied * 0.4)
    else
      some evebitda_implied
  else none

/-- The eleven-field metrics record built at lines 261-284. -/
structure Metrics where
  fcf_yield : Option ℚ
  roe : Option ℚ
  pb : Option ℚ
  current_ratio : Option ℚ
  debt_equity : Option ℚ
  net_margin : Option ℚ
  roa : Option ℚ
  revenue_growth : Option ℚ
  ev_ebitda : Option ℚ
  quick_ratio : Option ℚ
  fair_value : Option ℚ
deriving DecidableEq, Repr

/-- Lines 250-284: the `metrics` dict as computed from `info`. -/
def computeMetrics (info : Info) : Metrics where
  fcf_yield := fcf_yield_calc info.freeCashflow info.marketCap
  roe := info.returnOnEquity
  pb := info.priceToBook
  current_ratio := info.currentRatio
  debt_equity := info.debtToEquity
  net_margin := info.profitMargins
  roa := info.returnOnAssets
  revenue_growth := info.revenueGrowth
  ev_ebitda := info.enterpriseToEbitda
  quick_ratio := info.quickRatio
  fair_value := fair_value_calc (currentPriceOf info) info.enterpriseToEbitda
    info.trailingPegRatio

/-- Lines 286-288: `required_metrics`, in source order. -/
def required_metrics : List String :=
  ["fcf_yield", "roe", "pb", "current_ratio", "debt_equity",
   "net_margin", "roa", "revenue_growth", "ev_ebitda",
   "quick_ratio", "fair_value"]

/-- Dictionary access `metrics.get(k)` on the metrics dict. -/
def Metrics.get (m : Metrics) : String → Option ℚ
  | "fcf_yield" => m.fcf_yield
  | "roe" => m.roe
  | "pb" => m.pb
  | "current_ratio" => m.current_ratio
  | "debt_equity" => m.debt_equity
  | "net_margin" => m.net_margin
  | "roa" => m.roa
  | "revenue_growth" => m.revenue_growth
  | "ev_ebitda" => m.ev_ebitda
  | "quick_ratio" => m.quick_ratio
  | "fair_value" => m.fair_value
  | _ => none

/-- Line 289: `missing_metrics = [k for k in required_metrics if
metrics.get(k) is None]`. -/
def missing_metrics (m : Metrics) : List String :=
  required_metrics.filter fun k => (m.get k).isNone

/-- Lines 231-293: what `get_metrics_batch` does with a ticker once
`stock.info` has returned: the four eligibility validations in order (each
raising a plain `Exception` with an f-string message), then the metric
computation and the completeness gate over `required_metrics`. -/
def processInfo (info : Info) : Except String Metrics :=
  if info.quoteType ≠ some "EQUITY" then
    .error ("Not an equity security. Quote type: " ++ pyShowOptStr info.quoteType)
  else if info.currency ≠ some "USD" then
    .error ("Trading currency is not USD: " ++ pyShowOptStr info.currency)
  else if info.financialCurrency ≠ none ∧ info.financialCurrency ≠ some "USD" then
    .error ("Financial reporting currency is not USD: " ++ pyShowOptStr info.financialCurrency)
  else if info.country ∉ [some "US", some "USA", some "United States"] then
    .error ("Company not based in US: " ++ pyShowOptStr info.country)
  else
    let metrics := computeMetrics info
    let missing := missing_metrics metrics
    if missing ≠ [] then
      .error ("Missing required metrics: " ++ joinComma missing)
    else
      .ok metrics

/-! ## The batch fetch loop (`get_metrics_batch`, lines 215-302)

The provider call `stock.info` for one ticker is the external collaborator:
we model it as a function from the ticker to an outcome — a returned info
map, a raised `HTTPError` (with its optional attached response status and
its message), or some other raised exception. -/

inductive FetchOutcome where
  | ok (info : Info)
  | raiseHTTP (response : Option ℕ) (msg : String)
  | raiseExc (msg : String)
deriving DecidableEq, Repr

/-- What one iteration of the `for ticker in tickers` loop does for one
ticker, before the outer `except` handler routes it. -/
inductive TickerStep where
  | success (m : Metrics)
  | failure (e : PyError)
  | earlyReturn
deriving DecidableEq, Repr

/-- Lines 220-293 for a single ticker: an `HTTPError` from `stock.info`
whose response status is 429 returns from the whole function at once
(lines 224-228); any other `HTTPError` is re-raised, and every exception —
re-raised `HTTPError`, other provider exception, validation or
missing-metrics `Exception` — reaches the outer handler as a `failure`. -/
def fetchTicker (fetch : String → FetchOutcome) (ticker : String) : TickerStep :=
  match fetch ticker with
  | .raiseHTTP response msg =>
      if response == some 429 then .earlyReturn
      else .failure (.httpError response msg)
  | .raiseExc msg => .failure (.exc msg)
  | .ok info =>
      match processInfo info with
      | .error msg => .failure (.exc msg)
      | .ok m => .success m

/-- The value `get_metrics_batch` produces: either the triple the `return`
statements yield, or the `UnboundLocalError` raised at line 302 when
`hit_rate_limit` is read without ever having been assigned.  `successful_results`
and `failed_results` are dicts keyed by ticker, modelled as association lists
in insertion order (lookups take the most recent binding). -/
inductive BatchResult where
  | ret (succ : List (String × Metrics)) (failed : List (String × String)) (hit : Bool)
  | unboundLocalError
deriving DecidableEq, Repr

/-- The loop of lines 219-302.  `hit` carries the state of the local
variable `hit_rate_limit`: `none` while unassigned.  On a rate-limit
classification in the outer handler the source does `hit_rate_limit = True`
then `break`, after which line 302 returns with the assigned `True`; the
429 early return at line 228 returns `True` literally; when the loop ends
with the variable still unassigned, line 302 raises `UnboundLocalError`. -/
def gmbLoop (fetch : String → FetchOutcome) :
    List String → List (String × Metrics) → List (String × String) → Option Bool →
    BatchResult
  | [], succ, failed, hit =>
      match hit with
      | some b => .ret succ failed b
      | none => .unboundLocalError
  | ticker :: rest, succ, failed, hit =>
      match fetchTicker fetch ticker with
      | .earlyReturn => .ret succ failed true
      | .success m => gmbLoop fetch rest (succ ++ [(ticker, m)]) failed hit
      | .failure e =>
          if _check_rate_limit (.exc e) then .ret succ failed true
          else gmbLoop fetch rest succ (failed ++ [(ticker, e.str)]) hit

/-- Lines 215-302: `get_metrics_batch`. -/
def get_metrics_batch (fetch : String → FetchOutcome) (tickers : List String) :
    BatchResult :=
  gmbLoop fetch tickers [] [] none

/-- Whether the loop body for this ticker takes a rate-limit path: the 429
early return, or an exception the classifier calls a rate limit. -/
def rateLimitedStep : TickerStep → Bool
  | .earlyReturn => true
  | .failure e => _check_rate_limit (.exc e)
  | .success _ => false

/-! ## The orchestrator (`process_updates`, lines 304-356) -/

/-- A candidate produced by `get_stocks_to_update` (lines 55-59):
`{'ticker', 'rowIndex', 'failures'}`. -/
structure Candidate where
  ticker : String
  rowIndex : ℕ
  failures : ℤ
deriving DecidableEq, Repr

/-- A successful update routed to `update_metrics_batch`
(lines 317-324): `{'rowIndex', 'metrics'}`. -/
structure SuccUpdate where
  rowIndex : ℕ
  metrics : Metrics
deriving DecidableEq, Repr

/-- A failed update routed to `update_failures_batch` (and, when
blacklisted, to `update_active_status` and `update_blacklist_sheet`),
lines 329-340: `{'rowIndex', 'failures', 'error', 'ticker'}`.  `error` is
optional only because `update_failures_batch` reads it with
`update.get('error', 'Failed to fetch metrics')`; `process_updates` always
sets it. -/
structure FailUpdate where
  rowIndex : ℕ
  failures : ℤ
  error : Option String
  ticker : String
deriving DecidableEq, Repr

/-- Python dict lookup on an insertion-ordered association list: the most
recent binding for the key wins. -/
def dlookup {α : Type} : List (String × α) → String → Option α
  | [], _ => none
  | (k, v) :: rest, key =>
      match dlookup rest key with
      | some r => some r
      | none => if k == key then some v else none

/-- Everything `process_updates` writes over a whole cycle, in order:
rows sent to `update_metrics_batch`, to `update_failures_batch`, to
`update_active_status` (the `active=FALSE` write) and to
`update_blacklist_sheet` (the append-only blacklist log). -/
structure CycleLog where
  metricsWrites : List SuccUpdate
  failureWrites : List FailUpdate
  activeWrites : List FailUpdate
  blacklistAppends : List FailUpdate
deriving DecidableEq, Repr

def emptyLog : CycleLog := ⟨[], [], [], []⟩

/-- How a run of `process_updates` ends: the "No stocks need updating"
early return, the normal end of the loop, the `sys.exit(0)` taken after a
rate limit (a success exit), or an uncaught exception propagating. -/
inductive CycleOutcome where
  | noCandidates
  | done
  | rateLimitExit
  | raised (e : PyError)
deriving DecidableEq, Repr

/-- Lines 317-324: `successful_updates`, the batch members whose ticker is
in `successful_results`. -/
def batchSuccUpdates (succ : List (String × Metrics)) (batch : List Candidate) :
    List SuccUpdate :=
  batch.filterMap fun stock =>
    (dlookup succ stock.ticker).map fun m => SuccUpdate.mk stock.rowIndex m

/-- Lines 327-340: `failed_updates`, the batch members whose ticker is in
`failed_results`, with the stored error string. -/
def batchFailUpdates (failed : List (String × String)) (batch : List Candidate) :
    List FailUpdate :=
  batch.filterMap fun stock =>
    (dlookup failed stock.ticker).map fun e =>
      FailUpdate.mk stock.rowIndex stock.failures (some e) stock.ticker

/-- Lines 338-339: `blacklist_updates`, the failed updates whose stored
error string `should_blacklist` accepts (the source passes the string
`failed_results[ticker]['error']`, not the original exception). -/
def batchBlacklist (failed_updates : List FailUpdate) : List FailUpdate :=
  failed_updates.filter fun u => should_blacklist (.pstr (u.error.getD ""))

/-- Lines 310-340 for one batch: run `get_metrics_batch` on the batch's
tickers, then build the three update lists. -/
def processBatch (fetch : String → FetchOutcome) (batch : List Candidate) :
    Except PyError (List SuccUpdate × List FailUpdate × List FailUpdate × Bool) :=
  match get_metrics_batch fetch (batch.map Candidate.ticker) with
  | .unboundLocalError => .error (.unboundLocal "hit_rate_limit")
  | .ret succ failed hit =>
      .ok (batchSuccUpdates succ batch, batchFailUpdates failed batch,
        batchBlacklist (batchFailUpdates failed batch), hit)

/-- `candidates[i:i+batch_size]` chunking of the loop at line 310, with the
list's length as structural fuel (one chunk consumes at least one element
whenever the batch size is positive). -/
def chunksAux {α : Type} (bs : ℕ) : ℕ → List α → List (List α)
  | 0, _ => []
  | _, [] => []
  | fuel + 1, l => l.take bs :: chunksAux bs fuel (l.drop bs)

def chunks {α : Type} (bs : ℕ) (l : List α) : List (List α) :=
  chunksAux bs l.length l

/-- The `for i in range(0, len(candidates), batch_size)` loop body over the
precomputed chunks: process the batch, flush its writes (appending to the
cycle's write log), then `sys.exit(0)` if the batch hit the rate limit,
else pace (`time.sleep(0.1)`, no observable effect here) and continue. -/
def processChunks (fetch : String → FetchOutcome) :
    List (List Candidate) → CycleLog → CycleOutcome × CycleLog
  | [], log => (.done, log)
  | batch :: rest, log =>
      match processBatch fetch batch with
      | .error e => (.raised e, log)
      | .ok (su, fu, bu, hit) =>
          let log' : CycleLog :=
            { metricsWrites := log.metricsWrites ++ su
              failureWrites := log.failureWrites ++ fu
              activeWrites := log.activeWrites ++ bu
              blacklistAppends := log.blacklistAppends ++ bu }
          if hit then (.rateLimitExit, log')
          else processChunks fetch rest log'

/-- Lines 304-356: `process_updates`, over an already-selected candidate
list (`get_stocks_to_update` supplies it in the program, see
`get_stocks_to_update` below).  A zero batch size makes Python's
`range(0, n, 0)` raise `ValueError`. -/
def process_updates (fetch : String → FetchOutcome) (batch_size : ℕ)
    (candidates : List Candidate) : CycleOutcome × CycleLog :=
  if candidates.isEmpty then (.noCandidates, emptyLog)
  else if batch_size == 0 then
    (.raised (.exc "range() arg 3 must not be zero"), emptyLog)
  else processChunks fetch (chunks batch_size candidates) emptyLog

/-! ## The candidate selector (`get_stocks_to_update`, lines 32-63)

The sheet read returns rows of string cells (columns `A:P`, 0-indexed here:
0=ticker, 1=active, 2=lastUpdated, 3=lastAttempt, 4=failures, 5=error,
6=status).  `datetime.strptime(cell, '%Y-%m-%d %H:%M:%S')` is the external
collaborator: it is modelled as a parameter `parseTs` that yields the
parsed timestamp (as an integer time point) or `none` when it raises
`ValueError`; `datetime.now() - timedelta(days=1)` is the parameter
`one_day_ago` at the same time scale.  Python `int(cell)` is modelled
concretely for the decimal cells a failures column holds. -/

/-- Decimal digits to a number; `none` when empty or a non-digit occurs. -/
def parseDigits : List Char → Option ℕ
  | [] => none
  | ds => ds.foldl (fun acc c =>
      acc.bind fun n => if c.isDigit then some (n * 10 + (c.toNat - 48)) else none)
      (some 0)

/-- Python `int(s)` on the decimal strings a failures cell holds: optional
surrounding whitespace, an optional sign, then digits; anything else raises
`ValueError` (`none`). -/
def pyInt (s : String) : Option ℤ :=
  match (pyStrip s).data with
  | '-' :: ds => (parseDigits ds).map fun n => -(n : ℤ)
  | '+' :: ds => (parseDigits ds).map fun n => (n : ℤ)
  | ds => (parseDigits ds).map fun n => (n : ℤ)

/-- Line 49: `last_updated = strptime(row[2], ...) if row[2] and
row[2].strip() else None`, inside the `try`.  `none` = the `ValueError`
that skips the row; `some none` = a blank cell, giving `last_updated =
None`; `some (some t)` = a parsed timestamp. -/
def rowLastUpdatedTry (parseTs : String → Option ℤ) (row : List String) :
    Option (Option ℤ) :=
  if row.getD 2 "" ≠ "" ∧ pyStrip (row.getD 2 "") ≠ "" then
    (parseTs (row.getD 2 "")).map some
  else some none

/-- Line 50: `failures = int(row[4]) if row[4] and row[4].strip() else 0`,
inside the `try`.  `none` = the `ValueError` that skips the row. -/
def rowFailuresTry (row : List String) : Option ℤ :=
  if row.getD 4 "" ≠ "" ∧ pyStrip (row.getD 4 "") ≠ "" then pyInt (row.getD 4 "")
  else some 0

/-- Line 51: `status = row[6] if len(row) > 6 and row[6] else 'pending'`. -/
def rowStatus (row : List String) : String :=
  if 6 < row.length ∧ row.getD 6 "" ≠ "" then row.getD 6 ""
  else "pending"

/-- The short-circuited comparison `last_updated < one_day_ago` of line 54
(evaluated only when `last_updated` is not `None`). -/
def luOlder (one_day_ago : ℤ) : Option ℤ → Bool
  | some t => decide (t < one_day_ago)
  | none => false

/-- The selection test of lines 53-54: `active and failures < 5 and (status
== 'pending' or not last_updated or last_updated < one_day_ago)`, with
`active = row[1].lower() == 'true'` from line 48. -/
def rowGuard (one_day_ago : ℤ) (row : List String) (last_updated : Option ℤ)
    (failures : ℤ) : Bool :=
  (pyLower (row.getD 1 "") == "true") && decide (failures < 5) &&
    ((rowStatus row == "pending") || last_updated.isNone ||
      luOlder one_day_ago last_updated)

/-- Lines 44-61 for one row at sheet index `idx`: skip short rows, parse
(skipping the row when `strptime` or `int` raises `ValueError`), then
append a candidate iff the selection test passes. -/
def rowCandidate (parseTs : String → Option ℤ) (one_day_ago : ℤ) (idx : ℕ)
    (row : List String) : Option Candidate :=
  if row.length < 7 then none
  else
    match rowLastUpdatedTry parseTs row, rowFailuresTry row with
    | some last_updated, some failures =>
        if rowGuard one_day_ago row last_updated failures then
          some ⟨row.getD 0 "", idx, failures⟩
        else none
    | _, _ => none

/-- The `for idx, row in enumerate(metrics_data[1:], start=2)` loop. -/
def selectCandidatesAux (parseTs : String → Option ℤ) (one_day_ago : ℤ) :
    ℕ → List (List String) → List Candidate
  | _, [] => []
  | idx, row :: rest =>
      match rowCandidate parseTs one_day_ago idx row with
      | some c => c :: selectCandidatesAux parseTs one_day_ago (idx + 1) rest
      | none => selectCandidatesAux parseTs one_day_ago (idx + 1) rest

/-- The candidate list in source-row order, before the final sort. -/
def selectCandidates (parseTs : String → Option ℤ) (one_day_ago : ℤ)
    (metrics_data : List (List String)) : List Candidate :=
  selectCandidatesAux parseTs one_day_ago 2 (metrics_data.drop 1)

/-- The sort key order of line 63: `key=lambda x: x['failures']`. -/
def leFailures (a b : Candidate) : Prop := a.failures ≤ b.failures

instance : DecidableRel leFailures := fun a b => by
  unfold leFailures; infer_instance

instance : IsTotal Candidate leFailures :=
  ⟨fun a b => Int.le_total a.failures b.failures⟩

instance : IsTrans Candidate leFailures :=
  ⟨fun _ _ _ h h' => le_trans h h'⟩

/-- Line 63: `sorted(candidates, key=lambda x: x['failures'])`.  Python's
`sorted` is a stable sort by the key; a stable sort's output is determined
by the key order and the input order, so the (stable) insertion sort on
`leFailures` computes the same list. -/
def get_stocks_to_update (parseTs : String → Option ℤ) (one_day_ago : ℤ)
    (metrics_data : List (List String)) : List Candidate :=
  List.insertionSort leFailures (selectCandidates parseTs one_day_ago metrics_data)

/-! ## The failures write (`update_failures_batch`, lines 155-184)

A batch write request addresses a cell range `C{row}:G{row}` of the sheet
(1-indexed columns: C=3 lastUpdated, D=4 lastAttempt, E=5 failures,
F=6 error, G=7 status) and carries one value per cell.  With
`valueInputOption: USER_ENTERED`, a `None` in the values row leaves the
corresponding cell untouched. -/

inductive Cell where
  | skip
  | strv (s : String)
  | intv (n : ℤ)
deriving DecidableEq, Repr

structure WriteReq where
  row : ℕ
  firstCol : ℕ
  cells : List Cell
deriving DecidableEq, Repr

/-- Lines 160-174 for one failed update: values `[None, timestamp,
failures + 1, error_msg, 'failed']` over `C{row}:G{row}`, with `error_msg =
update.get('error', 'Failed to fetch metrics')`. -/
def failWriteReq (timestamp : String) (u : FailUpdate) : WriteReq where
  row := u.rowIndex
  firstCol := 3
  cells := [Cell.skip, Cell.strv timestamp, Cell.intv (u.failures + 1),
    Cell.strv (u.error.getD "Failed to fetch metrics"), Cell.strv "failed"]

/-- Lines 155-184: `update_failures_batch`, one request per failed update. -/
def update_failures_batch (timestamp : String) (failed_updates : List FailUpdate) :
    List WriteReq :=
  failed_updates.map (failWriteReq timestamp)

/-- The value a written cell ends up with: a skipped (`None`) cell keeps
its old value, numbers render as decimal text. -/
def renderCell (old : String) : Cell → String
  | .skip => old
  | .strv s => s
  | .intv n => toString n

/-- Applying one range write to a sheet (a grid of string cells addressed
by row and 1-indexed column). -/
def applyWrite (g : ℕ → ℕ → String) (w : WriteReq) : ℕ → ℕ → String :=
  fun r c =>
    if r = w.row ∧ w.firstCol ≤ c ∧ c < w.firstCol + w.cells.length then
      renderCell (g r c) (w.cells.getD (c - w.firstCol) Cell.skip)
    else g r c

/-! ## Concrete data used by witnesses -/

/-- A provider response that passes every validation and yields all eleven
metrics: `fcf_yield = 5/10`, `fair_value = 10 * (15/15) = 10`. -/
def infoUS : Info :=
  { quoteType := some "EQUITY", currency := some "USD", country := some "US",
    freeCashflow := some 5, marketCap := some 10, currentPrice := some 10,
    returnOnEquity := some 1, priceToBook := some 2, currentRatio := some 1,
    debtToEquity := some 1, profitMargins := some 1, returnOnAssets := some 1,
    revenueGrowth := some 1, enterpriseToEbitda := some 15, quickRatio := some 1 }

/-- The amended claim's price selection: the first entry that is present
(non-null) and nonzero.  Stated from the amended claim's words, to be
compared with the source's `or`-chain `currentPriceOf`. -/
def firstPresentNonzero : List (Option ℚ) → Option ℚ
  | [] => none
  | none :: rest => firstPresentNonzero rest
  | some x :: rest => if x ≠ 0 then some x else firstPresentNonzero rest

/-- Right-nested evaluation of a Python `or`-chain over a list (empty list
taken as falsy `None`). -/
def pyOrList : List (Option ℚ) → Option ℚ
  | [] => none
  | [v] => v
  | v :: rest => pyOr v (pyOrList rest)

/-- A provider response with a present-but-zero `currentPrice`, a
`regularMarketPrice` of 50 and an EV/EBITDA multiple of 15. -/
def infoZeroPrice : Info :=
  { currentPrice := some 0, regularMarketPrice := some 50,
    enterpriseToEbitda := some 15 }

/-- A provider where ticker `AAA` fails with HTTP 500 and any other ticker
hits the 429 rate limit. -/
def fetchC2 : String → FetchOutcome := fun t =>
  if t == "AAA" then
    .raiseHTTP (some 500) "500 Server Error: Internal Server Error for url: AAA"
  else
    .raiseHTTP (some 429) "Too Many Requests"

/-- The four eligibility validations of lines 238-248, as one test. -/
def validationsPass (info : Info) : Bool :=
  (info.quoteType == some "EQUITY") && (info.currency == some "USD") &&
    (info.financialCurrency == none || info.financialCurrency == some "USD") &&
    decide (info.country ∈ [some "US", some "USA", some "United States"])

/-- The message of line 291: the missing field names, comma-joined. -/
def missingMsg (info : Info) : String :=
  "Missing required metrics: " ++ joinComma (missing_metrics (computeMetrics info))

/-- A validated response (EQUITY, USD, US) with every metric field
absent: all eleven computed metrics are null. -/
def infoMissingAll : Info :=
  { quoteType := some "EQUITY", currency := some "USD", country := some "US" }

/-- The successful results the loop collects over a prefix of tickers. -/
def collectSucc (fetch : String → FetchOutcome) (l : List String) :
    List (String × Metrics) :=
  l.filterMap fun t =>
    match fetchTicker fetch t with
    | .success m => some (t, m)
    | _ => none

/-- The non-rate-limited failures the loop collects over a prefix. -/
def collectFail (fetch : String → FetchOutcome) (l : List String) :
    List (String × String) :=
  l.filterMap fun t =>
    match fetchTicker fetch t with
    | .failure e => if _check_rate_limit (.exc e) then none else some (t, e.str)
    | _ => none

/-- A provider where ticker `YBB` hits the 429 rate limit and every other
ticker succeeds with `infoUS`. -/
def fetchC4 : String → FetchOutcome := fun t =>
  if t == "YBB" then .raiseHTTP (some 429) "Too Many Requests" else .ok infoUS

/-- Three candidates: the second one (position 1) is the rate-limited
ticker, the third is never fetched. -/
def candC4 : List Candidate := [⟨"XAA", 2, 0⟩, ⟨"YBB", 3, 1⟩, ⟨"ZCC", 4, 2⟩]

/-! ## C3: the fcf_yield formula -/

/-- C3 counterexample: with `freeCashFlow = 0` and `marketCap = 100` (both
present, marketCap nonzero) the code yields `None`, not `0 / 100 = 0` as
the claim states, because `fcf and market_cap and market_cap != 0` is falsy
for a zero `fcf`. -/
theorem c3_zero_fcf_counterexample :
    fcf_yield_calc (some 0) (some 100) = none ∧
      fcf_yield_calc (some 0) (some 100) ≠ some ((0 : ℚ) / 100) := by
  decide

/-- C3 (amended): `fcf_yield` equals `freeCashFlow / marketCap` exactly when
both fields are present and both are nonzero; it is null otherwise — in
particular a present-but-zero `freeCashFlow` yields null. -/
theorem c3_fcf_yield_amended (fcf market_cap : Option ℚ) :
    fcf_yield_calc fcf market_cap =
      match fcf, market_cap with
      | some a, some b => if a ≠ 0 ∧ b ≠ 0 then some (a / b) else none
      | _, _ => none := by
  rcases fcf with _ | a <;> rcases market_cap with _ | b <;>
    simp only [fcf_yield_calc, pyTruthy]
  · rfl
  · rfl
  · simp
  · by_cases ha : a = 0 <;> by_cases hb : b = 0 <;>
      simp [ha, hb, Option.getD]

/-! ## C7: the fair-value formula -/

theorem pyOr_assoc (a b c : Option ℚ) :
    pyOr (pyOr a b) c = pyOr a (pyOr b c) := by
  by_cases ha : pyTruthy a <;> by_cases hb : pyTruthy b <;>
    simp [pyOr, ha, hb]

theorem firstPresentNonzero_pyOrList (l : List (Option ℚ)) :
    (pyTruthy (pyOrList l) = true → firstPresentNonzero l = pyOrList l) ∧
      (pyTruthy (pyOrList l) = false → firstPresentNonzero l = none) := by
  induction l with
  | nil => simp [pyOrList, firstPresentNonzero]
  | cons v rest ih =>
      rcases rest with _ | ⟨w, rest'⟩
      · rcases v with _ | x
        · simp [pyOrList, firstPresentNonzero, pyTruthy]
        · by_cases hx : x = 0 <;>
            simp [pyOrList, firstPresentNonzero, pyTruthy, hx]
      · have hstep : pyOrList (v :: w :: rest') = pyOr v (pyOrList (w :: rest')) := rfl
        by_cases hv : pyTruthy v
        · rcases v with _ | x
          · simp [pyTruthy] at hv
          · have hx : x ≠ 0 := by simpa [pyTruthy] using hv
            constructor
            · intro _
              simp [hstep, pyOr, hv, firstPresentNonzero, hx]
            · intro hfalse
              rw [hstep, pyOr, if_pos hv] at hfalse
              rw [hv] at hfalse
              exact absurd hfalse (by simp)
        · have hv' : pyTruthy v = false := by simpa using hv
          have hchain : pyOrList (v :: w :: rest') = pyOrList (w :: rest') := by
            rw [hstep, pyOr, if_neg hv]
          have hfv : firstPresentNonzero (v :: w :: rest') =
              firstPresentNonzero (w :: rest') := by
            rcases v with _ | x
            · rfl
            · have hx : x = 0 := by
                by_contra hx
                simp [pyTruthy, hx] at hv'
              simp [firstPresentNonzero, hx]
          rw [hchain, hfv]
          exact ih

/-- The source's left-nested `or`-chain agrees with the right-nested list
form. -/
theorem currentPriceOf_eq_pyOrList (info : Info) :
    currentPriceOf info =
      pyOrList [info.currentPrice, info.regularMarketPrice, info.previousClose,
        info.openPrice, info.fiftyDayAverage] := by
  show pyOr (pyOr (pyOr (pyOr info.currentPrice info.regularMarketPrice)
      info.previousClose) info.openPrice) info.fiftyDayAverage = _
  rw [pyOr_assoc, pyOr_assoc, pyOr_assoc]
  rfl

/-- C7 counterexample: on `infoZeroPrice` the claim's price — the first
non-null of the five price fields — is `0`, so the claim requires a null
fair value; the code skips the zero (Python `or` skips falsy values),
takes price `50` and computes `fair_value = 50 * (15 / 15) = 50`. -/
theorem c7_zero_price_counterexample :
    (computeMetrics infoZeroPrice).fair_value = some 50 ∧
      (computeMetrics infoZeroPrice).fair_value ≠ none := by
  have h : (computeMetrics infoZeroPrice).fair_value = some 50 := by
    show fair_value_calc (currentPriceOf infoZeroPrice)
      infoZeroPrice.enterpriseToEbitda infoZeroPrice.trailingPegRatio = some 50
    have hcp : currentPriceOf infoZeroPrice = some 50 := by
      simp [currentPriceOf, infoZeroPrice, pyOr, pyTruthy]
    rw [hcp]
    simp only [fair_value_calc, infoZeroPrice, notNoneNonzero, pyTruthy]
    norm_num
  exact ⟨h, by rw [h]; simp⟩

/-- C7 (amended): with `price` the first *present and nonzero* entry of
currentPrice, regularMarketPrice, previousClose, open, fiftyDayAverage (a
present-but-zero entry is skipped like a null one): if `price` and
`ev_ebitda` are both present and nonzero, `evImplied = price * (15 /
ev_ebitda)` and `fair_value = 0.6 * evImplied + 0.4 * (price * (2.0 /
peg))` when a PEG ratio is present and nonzero, else `fair_value =
evImplied`; when no such price exists or `ev_ebitda` is missing or zero,
`fair_value` is null. -/
theorem c7_fair_value_amended (info : Info) :
    (computeMetrics info).fair_value =
      match firstPresentNonzero [info.currentPrice, info.regularMarketPrice,
          info.previousClose, info.openPrice, info.fiftyDayAverage],
        info.enterpriseToEbitda with
      | some p, some ev =>
          if ev ≠ 0 then
            match info.trailingPegRatio with
            | some g =>
                if g ≠ 0 then some (p * (15 / ev) * 0.6 + p * (2.0 / g) * 0.4)
                else some (p * (15 / ev))
            | none => some (p * (15 / ev))
          else none
      | _, _ => none := by
  have hfv : (computeMetrics info).fair_value =
      fair_value_calc (currentPriceOf info) info.enterpriseToEbitda
        info.trailingPegRatio := rfl
  have hspec := firstPresentNonzero_pyOrList [info.currentPrice,
    info.regularMarketPrice, info.previousClose, info.openPrice, info.fiftyDayAverage]
  have hX := currentPriceOf_eq_pyOrList info
  rw [hfv]
  by_cases hT : pyTruthy (currentPriceOf info)
  · have hF : firstPresentNonzero [info.currentPrice, info.regularMarketPrice,
        info.previousClose, info.openPrice, info.fiftyDayAverage] =
        currentPriceOf info := by
      rw [hX]; exact hspec.1 (by rw [← hX]; exact hT)
    rcases hp : currentPriceOf info with _ | p
    · rw [hp] at hT; simp [pyTruthy] at hT
    · have hpne : p ≠ 0 := by rw [hp] at hT; simpa [pyTruthy] using hT
      rw [hp] at hF
      rw [hF]
      rcases hev : info.enterpriseToEbitda with _ | ev
      · simp [fair_value_calc, hp, notNoneNonzero, hpne]
      · by_cases hev0 : ev = 0
        · simp [fair_value_calc, hp, hev0, notNoneNonzero, hpne]
        · rcases hpeg : info.trailingPegRatio with _ | g
          · simp [fair_value_calc, hp, notNoneNonzero, hpne, hev0, pyTruthy]
          · by_cases hg : g = 0 <;>
              simp [fair_value_calc, hp, notNoneNonzero, hpne, hev0, pyTruthy, hg]
  · have hT' : pyTruthy (currentPriceOf info) = false := by simpa using hT
    have hF : firstPresentNonzero [info.currentPrice, info.regularMarketPrice,
        info.previousClose, info.openPrice, info.fiftyDayAverage] = none := by
      exact hspec.2 (by rw [← hX]; exact hT')
    rw [hF]
    have hcalc : fair_value_calc (currentPriceOf info) info.enterpriseToEbitda
        info.trailingPegRatio = none := by
      have : notNoneNonzero (currentPriceOf info) = false := by
        rcases hp : currentPriceOf info with _ | p
        · rfl
        · rw [hp] at hT'; simpa [pyTruthy, notNoneNonzero] using hT'
      simp [fair_value_calc, this]
    rw [hcalc]

/-! ## C1: termination of a cycle with no rate limit

`hit_rate_limit` is assigned only on the rate-limit paths (line 298, or
returned literally at line 228), so a batch in which no rate limit occurs
reaches line 302 with the variable unassigned and raises
`UnboundLocalError`. -/

theorem gmbLoop_unbound_of_no_rateLimit (fetch : String → FetchOutcome) :
    ∀ (tickers : List String) (succ : List (String × Metrics))
      (failed : List (String × String)),
      (∀ t ∈ tickers, rateLimitedStep (fetchTicker fetch t) = false) →
      gmbLoop fetch tickers succ failed none = .unboundLocalError := by
  intro tickers
  induction tickers with
  | nil => intro succ failed _; rfl
  | cons t rest ih =>
      intro succ failed h
      have ht := h t (by simp)
      have hrest : ∀ x ∈ rest, rateLimitedStep (fetchTicker fetch x) = false :=
        fun x hx => h x (by simp [hx])
      cases hstep : fetchTicker fetch t with
      | success m =>
          simp only [gmbLoop, hstep]
          exact ih _ _ hrest
      | failure e =>
          have hcr : _check_rate_limit (.exc e) = false := by
            simpa [rateLimitedStep, hstep] using ht
          simp only [gmbLoop, hstep, hcr, Bool.false_eq_true, if_false]
          exact ih _ _ hrest
      | earlyReturn =>
          rw [hstep] at ht
          simp [rateLimitedStep] at ht

/-- C1: the claim says a cycle over a non-empty candidate list in which no
fetch takes a rate-limit path terminates normally in `Done`.  In fact any
such cycle raises `UnboundLocalError` at `get_metrics_batch`'s `return`
(line 302), because `hit_rate_limit` is never initialised: the loop only
assigns it on the rate-limit break.  The cycle never reaches `Done`. -/
theorem c1_no_rate_limit_crash (fetch : String → FetchOutcome)
    (candidates : List Candidate) (hne : candidates ≠ [])
    (hnorl : ∀ c ∈ candidates, rateLimitedStep (fetchTicker fetch c.ticker) = false) :
    (process_updates fetch 50 candidates).1 =
      CycleOutcome.raised (.unboundLocal "hit_rate_limit") := by
  rcases candidates with _ | ⟨c0, cs⟩
  · exact absurd rfl hne
  · have hbatch : get_metrics_batch fetch (((c0 :: cs).take 50).map Candidate.ticker) =
        .unboundLocalError := by
      apply gmbLoop_unbound_of_no_rateLimit
      intro t ht
      rcases List.mem_map.mp ht with ⟨c, hc, rfl⟩
      exact hnorl c (List.mem_of_mem_take hc)
    have hchunks : chunks 50 (c0 :: cs) =
        (c0 :: cs).take 50 :: chunksAux 50 cs.length ((c0 :: cs).drop 50) := rfl
    simp only [process_updates, List.isEmpty_cons, Bool.false_eq_true, if_false,
      beq_iff_eq, OfNat.ofNat_ne_zero, hchunks, processChunks, processBatch, hbatch]

/-- C1 witness instance: a one-candidate cycle whose single fetch succeeds
with a complete metrics record still raises `UnboundLocalError`. -/
theorem c1_no_rate_limit_crash_witness :
    (process_updates (fun _ => FetchOutcome.ok infoUS) 50 [⟨"AAPL", 2, 0⟩]).1 =
      CycleOutcome.raised (.unboundLocal "hit_rate_limit") := by
  apply c1_no_rate_limit_crash
  · simp
  · intro c hc
    rw [List.mem_singleton] at hc
    subst hc
    decide

/-! ## C2: what happens to a 500-status fetch failure

The comments at lines 23 and 71-73 intend HTTP 5xx failures to be
temporary: incremented but never blacklisted.  But `process_updates` stores
and passes `str(e)` (lines 300 and 331-338), and a string has no
`status_code` attribute (nor does `requests.HTTPError` itself), so
`should_blacklist` returns `True` for every non-rate-limited failure,
status 500 included.  The only runs in which a 500 failure's write is ever
flushed at all are those where the same batch later hits a rate limit
(otherwise the cycle dies with `UnboundLocalError`, see C1); in those runs
the 500-failed record is deactivated and appended to the blacklist. -/

/-- C2: contrary to the claim, the fetch failure with HTTP status 500 for
ticker `AAA` is blacklisted: its failures write is issued (status `failed`,
count incremented), but it is also sent to the `active=FALSE` write and
appended to the blacklist log. -/
theorem c2_transient_500_is_blacklisted :
    (process_updates fetchC2 50 [⟨"AAA", 2, 1⟩, ⟨"BBB", 3, 0⟩]).1 =
        CycleOutcome.rateLimitExit ∧
      ((process_updates fetchC2 50 [⟨"AAA", 2, 1⟩, ⟨"BBB", 3, 0⟩]).2.failureWrites.map
        FailUpdate.ticker) = ["AAA"] ∧
      ((process_updates fetchC2 50 [⟨"AAA", 2, 1⟩, ⟨"BBB", 3, 0⟩]).2.activeWrites.map
        FailUpdate.ticker) = ["AAA"] ∧
      ((process_updates fetchC2 50 [⟨"AAA", 2, 1⟩, ⟨"BBB", 3, 0⟩]).2.blacklistAppends.map
        FailUpdate.ticker) = ["AAA"] := by
  decide

/-! ## C9: the failures write -/

/-- C9: for every non-rate-limited failed update `u` in a failures batch,
the generated write request covers columns C..G of `u`'s row and, applied
to any sheet state: leaves lastUpdated (column C) unchanged, sets
lastAttempt (D) to the timestamp, failures (E) to the previous count plus
one, error (F) to the failure message, status (G) to `failed`, and touches
no cell outside `C..G` of that row. -/
theorem c9_failures_write (timestamp : String) (failed_updates : List FailUpdate)
    (u : FailUpdate) (g : ℕ → ℕ → String) (hu : u ∈ failed_updates) :
    failWriteReq timestamp u ∈ update_failures_batch timestamp failed_updates ∧
      applyWrite g (failWriteReq timestamp u) u.rowIndex 3 = g u.rowIndex 3 ∧
      applyWrite g (failWriteReq timestamp u) u.rowIndex 4 = timestamp ∧
      applyWrite g (failWriteReq timestamp u) u.rowIndex 5 = toString (u.failures + 1) ∧
      (∀ msg, u.error = some msg →
        applyWrite g (failWriteReq timestamp u) u.rowIndex 6 = msg) ∧
      applyWrite g (failWriteReq timestamp u) u.rowIndex 7 = "failed" ∧
      (∀ r c, (r ≠ u.rowIndex ∨ c < 3 ∨ 7 < c) →
        applyWrite g (failWriteReq timestamp u) r c = g r c) := by
  refine ⟨List.mem_map.mpr ⟨u, hu, rfl⟩, ?_, ?_, ?_, ?_, ?_, ?_⟩
  · simp [applyWrite, failWriteReq, renderCell]
  · simp [applyWrite, failWriteReq, renderCell]
  · simp [applyWrite, failWriteReq, renderCell]
  · intro msg hmsg
    simp [applyWrite, failWriteReq, renderCell, hmsg]
  · simp [applyWrite, failWriteReq, renderCell]
  · intro r c hrc
    have hcond : ¬(r = (failWriteReq timestamp u).row ∧
        (failWriteReq timestamp u).firstCol ≤ c ∧
        c < (failWriteReq timestamp u).firstCol +
          (failWriteReq timestamp u).cells.length) := by
      simp only [failWriteReq, List.length_cons, List.length_nil]
      rcases hrc with h | h | h
      · exact fun hc => h hc.1
      · exact fun hc => absurd hc.2.1 (by omega)
      · exact fun hc => absurd hc.2.2 (by omega)
    simp [applyWrite, hcond]

/-- C9 witness instance: one failed update at row 2 with two prior
failures; lastUpdated stays, lastAttempt and error and status are set, and
a cell in another row is untouched. -/
theorem c9_failures_write_witness :
    applyWrite (fun _ _ => "old") (failWriteReq "ts" ⟨2, 1, some "boom", "AAA"⟩) 2 3 =
        "old" ∧
      applyWrite (fun _ _ => "old") (failWriteReq "ts" ⟨2, 1, some "boom", "AAA"⟩) 2 4 =
        "ts" ∧
      applyWrite (fun _ _ => "old") (failWriteReq "ts" ⟨2, 1, some "boom", "AAA"⟩) 2 6 =
        "boom" ∧
      applyWrite (fun _ _ => "old") (failWriteReq "ts" ⟨2, 1, some "boom", "AAA"⟩) 2 7 =
        "failed" ∧
      applyWrite (fun _ _ => "old") (failWriteReq "ts" ⟨2, 1, some "boom", "AAA"⟩) 9 5 =
        "old" := by
  have h := c9_failures_write "ts" [⟨2, 1, some "boom", "AAA"⟩]
    ⟨2, 1, some "boom", "AAA"⟩ (fun _ _ => "old") (by simp)
  exact ⟨h.2.1, h.2.2.1, h.2.2.2.2.1 "boom" rfl, h.2.2.2.2.2.1,
    h.2.2.2.2.2.2 9 5 (by simp)⟩

/-! ## Selector helper lemmas (used by C5, C6 and C10) -/

theorem rowCandidate_short (parseTs : String → Option ℤ) (one_day_ago : ℤ)
    (idx : ℕ) (row : List String) (h7 : row.length < 7) :
    rowCandidate parseTs one_day_ago idx row = none := by
  unfold rowCandidate
  rw [if_pos h7]

theorem rowCandidate_badLu (parseTs : String → Option ℤ) (one_day_ago : ℤ)
    (idx : ℕ) (row : List String) (h7 : ¬row.length < 7)
    (hlu : rowLastUpdatedTry parseTs row = none) :
    rowCandidate parseTs one_day_ago idx row = none := by
  unfold rowCandidate
  rw [if_neg h7, hlu]

theorem rowCandidate_badF (parseTs : String → Option ℤ) (one_day_ago : ℤ)
    (idx : ℕ) (row : List String) (h7 : ¬row.length < 7) (lu : Option ℤ)
    (hlu : rowLastUpdatedTry parseTs row = some lu)
    (hf : rowFailuresTry row = none) :
    rowCandidate parseTs one_day_ago idx row = none := by
  unfold rowCandidate
  rw [if_neg h7, hlu, hf]

/-- The per-row decision of lines 44-61, once the row is long enough and its
lastUpdated and failures cells have parsed (to `lu` and `f`). -/
theorem rowCandidate_char (parseTs : String → Option ℤ) (one_day_ago : ℤ)
    (idx : ℕ) (row : List String) (hlen : 7 ≤ row.length)
    (f : ℤ) (hf : rowFailuresTry row = some f)
    (lu : Option ℤ) (hlu : rowLastUpdatedTry parseTs row = some lu) :
    rowCandidate parseTs one_day_ago idx row =
      (if rowGuard one_day_ago row lu f then
        some ⟨row.getD 0 "", idx, f⟩ else none) := by
  unfold rowCandidate
  rw [if_neg (show ¬row.length < 7 by omega), hlu, hf]

theorem rowCandidate_rowIndex (parseTs : String → Option ℤ) (one_day_ago : ℤ)
    (idx : ℕ) (row : List String) (c : Candidate)
    (h : rowCandidate parseTs one_day_ago idx row = some c) : c.rowIndex = idx := by
  by_cases h7 : row.length < 7
  · rw [rowCandidate_short parseTs one_day_ago idx row h7] at h; cases h
  · rcases hlu : rowLastUpdatedTry parseTs row with _ | lu
    · rw [rowCandidate_badLu parseTs one_day_ago idx row h7 hlu] at h; cases h
    · rcases hf : rowFailuresTry row with _ | f
      · rw [rowCandidate_badF parseTs one_day_ago idx row h7 lu hlu hf] at h; cases h
      · rw [rowCandidate_char parseTs one_day_ago idx row (by omega) f hf lu hlu] at h
        by_cases hg : rowGuard one_day_ago row lu f = true
        · rw [if_pos hg] at h; cases h; rfl
        · rw [if_neg hg] at h; cases h

theorem mem_selectCandidatesAux (parseTs : String → Option ℤ) (one_day_ago : ℤ) :
    ∀ (rows : List (List String)) (start : ℕ) (c : Candidate),
      c ∈ selectCandidatesAux parseTs one_day_ago start rows ↔
        ∃ j row, rows.get? j = some row ∧
          rowCandidate parseTs one_day_ago (start + j) row = some c := by
  intro rows
  induction rows with
  | nil => simp [selectCandidatesAux]
  | cons row rest ih =>
      intro start c
      constructor
      · intro hmem
        unfold selectCandidatesAux at hmem
        rcases hcr : rowCandidate parseTs one_day_ago start row with _ | c0 <;>
          rw [hcr] at hmem
        · rcases (ih (start + 1) c).mp hmem with ⟨j, row', hj, hc⟩
          exact ⟨j + 1, row', by simpa using hj, by
            have : start + 1 + j = start + (j + 1) := by omega
            rw [← this]; exact hc⟩
        · rcases List.mem_cons.mp hmem with rfl | hmem'
          · exact ⟨0, row, rfl, by simpa using hcr⟩
          · rcases (ih (start + 1) c).mp hmem' with ⟨j, row', hj, hc⟩
            exact ⟨j + 1, row', by simpa using hj, by
              have : start + 1 + j = start + (j + 1) := by omega
              rw [← this]; exact hc⟩
      · rintro ⟨j, row', hj, hc⟩
        unfold selectCandidatesAux
        rcases j with _ | j'
        · rw [List.get?_cons_zero] at hj
          injection hj with hj
          subst hj
          rw [show start + 0 = start by omega] at hc
          rw [hc]
          exact List.mem_cons_self _ _
        · rw [List.get?_cons_succ] at hj
          have hc' : rowCandidate parseTs one_day_ago (start + 1 + j') row' = some c := by
            have : start + 1 + j' = start + (j' + 1) := by omega
            rw [this]; exact hc
          have hmem' := (ih (start + 1) c).mpr ⟨j', row', hj, hc'⟩
          rcases hcr : rowCandidate parseTs one_day_ago start row with _ | c0
          · exact hmem'
          · exact List.mem_cons_of_mem _ hmem'

/-- The boolean selection test, as a proposition. -/
theorem rowCond_iff (row : List String) (one_day_ago : ℤ) (f : ℤ) (lu : Option ℤ) :
    rowGuard one_day_ago row lu f = true ↔
      (pyLower (row.getD 1 "") = "true" ∧ f < 5 ∧
        (rowStatus row = "pending" ∨ lu = none ∨
          ∃ t, lu = some t ∧ t < one_day_ago)) := by
  rcases lu with _ | t <;> simp [rowGuard, luOlder, and_assoc]

/-! ## C10: blank-cell defaults in the selector -/

/-- C10 counterexample: a 7-cell row that is active with a blank failures
cell and a blank status cell, but whose lastUpdated cell holds text that is
not in the `%Y-%m-%d %H:%M:%S` format (`strptime` raises `ValueError`,
modelled by the parse returning `none`).  The claim says such a row is
always selected regardless of its lastUpdated value; in fact the
`ValueError` makes the `except` clause skip the row, so it is never
selected. -/
theorem c10_unparsed_timestamp_counterexample :
    pyLower (["XYZ", "TRUE", "last tuesday", "", "", "", ""].getD 1 "") = "true" ∧
      (["XYZ", "TRUE", "last tuesday", "", "", "", ""].getD 4 "") = "" ∧
      (["XYZ", "TRUE", "last tuesday", "", "", "", ""].getD 6 "") = "" ∧
      rowCandidate (fun _ => none) 0 2 ["XYZ", "TRUE", "last tuesday", "", "", "", ""] =
        none ∧
      get_stocks_to_update (fun _ => none) 0
        [["Ticker"], ["XYZ", "TRUE", "last tuesday", "", "", "", ""]] = [] := by
  decide

/-- C10 (amended): for a row of at least 7 cells, a blank failures cell is
treated as count 0 and an empty status cell as status `pending`; such an
active row is selected as a candidate whenever its lastUpdated cell is
blank or parses as a timestamp — whatever the parsed value — but a row
whose non-blank lastUpdated cell fails to parse is skipped, not selected. -/
theorem c10_blank_defaults_amended (parseTs : String → Option ℤ) (one_day_ago : ℤ)
    (idx : ℕ) (row : List String)
    (hlen : 7 ≤ row.length)
    (hact : pyLower (row.getD 1 "") = "true")
    (hfb : row.getD 4 "" = "" ∨ pyStrip (row.getD 4 "") = "")
    (hsb : row.getD 6 "" = "")
    (hlu : rowLastUpdatedTry parseTs row ≠ none) :
    rowFailuresTry row = some 0 ∧ rowStatus row = "pending" ∧
      ∃ c, rowCandidate parseTs one_day_ago idx row = some c ∧
        c.rowIndex = idx ∧ c.failures = 0 := by
  have hfail : rowFailuresTry row = some 0 := by
    have hcond : ¬(row.getD 4 "" ≠ "" ∧ pyStrip (row.getD 4 "") ≠ "") := by
      rcases hfb with h | h
      · exact fun hc => hc.1 h
      · exact fun hc => hc.2 h
    unfold rowFailuresTry
    exact if_neg hcond
  have hstat : rowStatus row = "pending" := by
    unfold rowStatus
    exact if_neg fun hc => hc.2 hsb
  refine ⟨hfail, hstat, ?_⟩
  rcases Option.ne_none_iff_exists.mp hlu with ⟨lu, hluv⟩
  refine ⟨⟨row.getD 0 "", idx, 0⟩, ?_, rfl, rfl⟩
  have hguard : rowGuard one_day_ago row lu 0 = true :=
    (rowCond_iff row one_day_ago 0 lu).mpr ⟨hact, by omega, Or.inl hstat⟩
  unfold rowCandidate
  rw [if_neg (show ¬row.length < 7 by omega)]
  rw [← hluv, hfail]
  simp [hguard]

/-- C10 witness instance: an active 7-cell row with every other cell blank
is selected with failures count 0. -/
theorem c10_blank_defaults_amended_witness :
    rowFailuresTry ["XYZ", "TRUE", "", "", "", "", ""] = some 0 ∧
      rowStatus ["XYZ", "TRUE", "", "", "", "", ""] = "pending" ∧
      ∃ c, rowCandidate (fun _ => none) 0 2 ["XYZ", "TRUE", "", "", "", "", ""] =
          some c ∧ c.rowIndex = 2 ∧ c.failures = 0 :=
  c10_blank_defaults_amended (fun _ => none) 0 2 ["XYZ", "TRUE", "", "", "", "", ""]
    (by decide) (by decide) (Or.inl (by decide)) (by decide) (by decide)

/-! ## C5 and C6: the selector's filter rule, ordering and stability -/

/-- C5: for a well-formed row (at least 7 cells, lastUpdated blank or
parsing to `lu`, failures blank or parsing to `f`) at position `i` of the
data rows (sheet row `i + 2`), a candidate with that row index appears in
the Selector's output iff the row is active, `f < 5`, and (status is
`pending`, or lastUpdated is absent, or lastUpdated is older than the
24-hour cutoff); in particular an inactive row or one with `f ≥ 5` is never
selected. -/
theorem c5_selector_filter (parseTs : String → Option ℤ) (one_day_ago : ℤ)
    (metrics_data : List (List String)) (i : ℕ) (row : List String)
    (hrow : (metrics_data.drop 1).get? i = some row)
    (hlen : 7 ≤ row.length)
    (f : ℤ) (hf : rowFailuresTry row = some f)
    (lu : Option ℤ) (hlu : rowLastUpdatedTry parseTs row = some lu) :
    (∃ c ∈ get_stocks_to_update parseTs one_day_ago metrics_data,
        c.rowIndex = i + 2) ↔
      (pyLower (row.getD 1 "") = "true" ∧ f < 5 ∧
        (rowStatus row = "pending" ∨ lu = none ∨
          ∃ t, lu = some t ∧ t < one_day_ago)) := by
  have hperm := List.perm_insertionSort leFailures
    (selectCandidates parseTs one_day_ago metrics_data)
  constructor
  · rintro ⟨c, hc, hidx⟩
    have hcsel : c ∈ selectCandidates parseTs one_day_ago metrics_data :=
      (hperm.mem_iff).mp hc
    rcases (mem_selectCandidatesAux parseTs one_day_ago _ 2 c).mp hcsel with
      ⟨j, row', hj, hcr⟩
    have hexact : 2 + j = i + 2 := by
      rw [← rowCandidate_rowIndex parseTs one_day_ago (2 + j) row' c hcr]
      exact hidx
    have hji : j = i := by omega
    rw [hji] at hj hcr
    rw [hrow] at hj
    injection hj with hj
    subst hj
    rw [rowCandidate_char parseTs one_day_ago (2 + i) row hlen f hf lu hlu] at hcr
    rw [← rowCond_iff row one_day_ago f lu]
    by_contra hfalse
    rw [if_neg (by simpa using hfalse)] at hcr
    exact absurd hcr (by simp)
  · intro hcond
    have hb := (rowCond_iff row one_day_ago f lu).mpr hcond
    refine ⟨⟨row.getD 0 "", 2 + i, f⟩, ?_, show 2 + i = i + 2 by omega⟩
    show _ ∈ List.insertionSort leFailures
      (selectCandidates parseTs one_day_ago metrics_data)
    rw [hperm.mem_iff]
    refine (mem_selectCandidatesAux parseTs one_day_ago _ 2 _).mpr ⟨i, row, hrow, ?_⟩
    rw [rowCandidate_char parseTs one_day_ago (2 + i) row hlen f hf lu hlu, if_pos hb]

/-- C5 witness instance: an active data row with two failures, blank
lastUpdated and status `pending` is selected (sheet row 2). -/
theorem c5_selector_filter_witness :
    ∃ c ∈ get_stocks_to_update (fun _ => none) 0
        [["Ticker"], ["AAPL", "TRUE", "", "", "2", "", "pending"]],
      c.rowIndex = 0 + 2 :=
  (c5_selector_filter (fun _ => none) 0
      [["Ticker"], ["AAPL", "TRUE", "", "", "2", "", "pending"]] 0
      ["AAPL", "TRUE", "", "", "2", "", "pending"]
      (by decide) (by decide) 2 (by decide) none (by decide)).mpr
    (by refine ⟨by decide, by decide, Or.inl (by decide)⟩)

theorem filter_orderedInsert_eqk (k : ℤ) (a : Candidate) (l : List Candidate)
    (ha : a.failures = k) :
    (l.orderedInsert leFailures a).filter (fun c => c.failures == k) =
      a :: l.filter (fun c => c.failures == k) := by
  induction l with
  | nil => simp [List.orderedInsert, ha]
  | cons b l ih =>
      by_cases hab : leFailures a b
      · rw [List.orderedInsert_of_le leFailures _ hab]
        simp [List.filter_cons, ha]
      · have hbk : (b.failures == k) = false := by
          have : b.failures < a.failures := by
            unfold leFailures at hab
            omega
          simp only [beq_eq_false_iff_ne, ne_eq]
          omega
        simp only [List.orderedInsert, if_neg hab, List.filter_cons, hbk,
          Bool.false_eq_true, if_false]
        rw [ih]

theorem filter_orderedInsert_nek (k : ℤ) (a : Candidate) (l : List Candidate)
    (ha : a.failures ≠ k) :
    (l.orderedInsert leFailures a).filter (fun c => c.failures == k) =
      l.filter (fun c => c.failures == k) := by
  induction l with
  | nil => simp [List.orderedInsert, ha]
  | cons b l ih =>
      by_cases hab : leFailures a b
      · rw [List.orderedInsert_of_le leFailures _ hab]
        simp [List.filter_cons, ha]
      · simp only [List.orderedInsert, if_neg hab, List.filter_cons]
        rw [ih]

theorem filter_insertionSort_eq (k : ℤ) (l : List Candidate) :
    (List.insertionSort leFailures l).filter (fun c => c.failures == k) =
      l.filter (fun c => c.failures == k) := by
  induction l with
  | nil => rfl
  | cons a l ih =>
      show (List.orderedInsert leFailures a (List.insertionSort leFailures l)).filter _ = _
      by_cases ha : a.failures = k
      · rw [filter_orderedInsert_eqk k a _ ha, ih]
        simp [List.filter_cons, ha]
      · rw [filter_orderedInsert_nek k a _ ha, ih]
        simp [List.filter_cons, ha]

/-- C6: the Selector's output is sorted ascending by the failures field,
and for every failures count `k` the candidates with that count appear in
exactly their source-row order (the filter by count agrees with the
pre-sort candidate list, which is in row order) — Python's `sorted` is
stable. -/
theorem c6_selector_sorted_stable (parseTs : String → Option ℤ) (one_day_ago : ℤ)
    (metrics_data : List (List String)) :
    (get_stocks_to_update parseTs one_day_ago metrics_data).Sorted leFailures ∧
      ∀ k : ℤ,
        (get_stocks_to_update parseTs one_day_ago metrics_data).filter
            (fun c => c.failures == k) =
          (selectCandidates parseTs one_day_ago metrics_data).filter
            (fun c => c.failures == k) :=
  ⟨List.sorted_insertionSort leFailures _,
   fun k => filter_insertionSort_eq k _⟩

/-! ## C8: the completeness gate -/

theorem processInfo_of_valid (info : Info) (h : validationsPass info = true) :
    processInfo info =
      (if missing_metrics (computeMetrics info) ≠ [] then
        Except.error (missingMsg info)
      else Except.ok (computeMetrics info)) := by
  simp only [validationsPass, Bool.and_eq_true, beq_iff_eq, Bool.or_eq_true,
    decide_eq_true_eq] at h
  obtain ⟨⟨⟨hq, hc⟩, hfc⟩, hco⟩ := h
  unfold processInfo
  rw [if_neg (by simp [hq]), if_neg (by simp [hc]), if_neg ?hfc,
    if_neg (by simp [hco])]
  case hfc =>
    rcases hfc with h | h <;> simp [h]
  rfl

theorem hasInfix429_eq_false (l : List Char) (h : '4' ∉ l) :
    hasInfixChars ['4', '2', '9'] l = false := by
  induction l with
  | nil => rfl
  | cons c rest ih =>
      have hc : ('4' == c) = false := by
        simp only [beq_eq_false_iff_ne, ne_eq]
        intro hcc
        exact h (hcc ▸ List.mem_cons_self _ _)
      have hrest : '4' ∉ rest := fun hr => h (List.mem_cons_of_mem _ hr)
      unfold hasInfixChars
      simp [List.isPrefixOf, hc, ih hrest]

theorem four_not_mem_joinComma (l : List String) (h : ∀ s ∈ l, '4' ∉ s.data) :
    '4' ∉ (joinComma l).data := by
  induction l with
  | nil =>
      intro hmem
      exact absurd hmem (by decide)
  | cons s rest ih =>
      rcases rest with _ | ⟨w, r⟩
      · exact h s (List.mem_cons_self _ _)
      · have hstep : joinComma (s :: w :: r) = s ++ ", " ++ joinComma (w :: r) := rfl
        rw [hstep]
        intro hmem
        rw [String.data_append, String.data_append] at hmem
        rcases List.mem_append.mp hmem with hmem' | hmem'
        · rcases List.mem_append.mp hmem' with hs | hcomma
          · exact h s (List.mem_cons_self _ _) hs
          · exact absurd hcomma (by decide)
        · exact ih (fun x hx => h x (List.mem_cons_of_mem _ hx)) hmem'

theorem missingMsg_no429 (info : Info) :
    strContains (missingMsg info) "429" = false := by
  have hpat : ("429" : String).data = ['4', '2', '9'] := rfl
  show hasInfixChars ("429" : String).data (missingMsg info).data = false
  rw [hpat]
  apply hasInfix429_eq_false
  show '4' ∉ ("Missing required metrics: " ++
    joinComma (missing_metrics (computeMetrics info))).data
  rw [String.data_append]
  intro hmem
  rcases List.mem_append.mp hmem with hpre | hjoin
  · exact absurd hpre (by decide)
  · refine four_not_mem_joinComma _ ?_ hjoin
    intro s hs
    have hreq : s ∈ required_metrics := (List.mem_filter.mp hs).1
    have hall : ∀ x ∈ required_metrics, '4' ∉ x.data := by decide
    exact hall s hreq

theorem gmbLoop_succ_mem (fetch : String → FetchOutcome) :
    ∀ (tickers : List String) (succ : List (String × Metrics))
      (failed : List (String × String)) (hit : Option Bool)
      (succ' : List (String × Metrics)) (failed' : List (String × String)) (b : Bool),
      gmbLoop fetch tickers succ failed hit = .ret succ' failed' b →
      ∀ t m, (t, m) ∈ succ' →
        (t, m) ∈ succ ∨ ∃ m', fetchTicker fetch t = .success m' := by
  intro tickers
  induction tickers with
  | nil =>
      intro succ failed hit succ' failed' b h t m hm
      rcases hit with _ | b0 <;> simp only [gmbLoop] at h
      · exact BatchResult.noConfusion h
      · injection h with h1 h2 h3
        subst h1
        exact Or.inl hm
  | cons tk rest ih =>
      intro succ failed hit succ' failed' b h t m hm
      rcases hstep : fetchTicker fetch tk with m0 | e | _
      · have heq : gmbLoop fetch (tk :: rest) succ failed hit =
            gmbLoop fetch rest (succ ++ [(tk, m0)]) failed hit := by
          simp only [gmbLoop, hstep]
        rw [heq] at h
        rcases ih _ _ _ _ _ _ h t m hm with hin | hex
        · rcases List.mem_append.mp hin with hin' | hone
          · exact Or.inl hin'
          · have hpair := List.mem_singleton.mp hone
            have ht : t = tk := congrArg Prod.fst hpair
            exact Or.inr ⟨m0, ht ▸ hstep⟩
        · exact Or.inr hex
      · by_cases hcr : _check_rate_limit (.exc e) = true
        · have heq : gmbLoop fetch (tk :: rest) succ failed hit =
              .ret succ failed true := by
            simp only [gmbLoop, hstep, hcr, if_true]
          rw [heq] at h
          injection h with h1 h2 h3
          subst h1
          exact Or.inl hm
        · have heq : gmbLoop fetch (tk :: rest) succ failed hit =
              gmbLoop fetch rest succ (failed ++ [(tk, e.str)]) hit := by
            simp only [gmbLoop, hstep, hcr, Bool.false_eq_true, if_false]
          rw [heq] at h
          exact ih _ _ _ _ _ _ h t m hm
      · have heq : gmbLoop fetch (tk :: rest) succ failed hit =
            .ret succ failed true := by
          simp only [gmbLoop, hstep]
        rw [heq] at h
        injection h with h1 h2 h3
        subst h1
        exact Or.inl hm

/-- C8: when a validated provider response leaves any of the eleven
required metrics null, the per-ticker fetch fails with the `Missing
required metrics: ...` message (which enumerates the missing field names);
that message is not rate-limited, `should_blacklist` accepts it (a
Permanent failure), and no ticker whose fetch returns this response ever
appears among a batch's successful results — so it is never written with
status `complete`. -/
theorem c8_completeness_gate (info : Info)
    (hvalid : validationsPass info = true)
    (hmiss : missing_metrics (computeMetrics info) ≠ []) :
    processInfo info = .error (missingMsg info) ∧
      _check_rate_limit (.exc (.exc (missingMsg info))) = false ∧
      should_blacklist (.pstr (missingMsg info)) = true ∧
      ∀ (fetch : String → FetchOutcome) (tickers : List String) (t : String)
        (succ : List (String × Metrics)) (failed : List (String × String)) (b : Bool),
        fetch t = .ok info →
        get_metrics_batch fetch tickers = .ret succ failed b →
        ∀ m, (t, m) ∉ succ := by
  have hmsg : processInfo info = .error (missingMsg info) := by
    rw [processInfo_of_valid info hvalid, if_pos hmiss]
  have hno429 : strContains (missingMsg info) "429" = false := missingMsg_no429 info
  refine ⟨hmsg, ?_, ?_, ?_⟩
  · simp [_check_rate_limit, PyVal.isHTTPError, PyVal.str, PyError.str, hno429]
  · simp [should_blacklist, _check_rate_limit, PyVal.isHTTPError, PyVal.str,
      hasattrStatusCode, hno429]
  · intro fetch tickers t succ failed b hfetch hbatch m hm
    have hstep : fetchTicker fetch t = .failure (.exc (missingMsg info)) := by
      simp only [fetchTicker, hfetch, hmsg]
    rcases gmbLoop_succ_mem fetch tickers [] [] none succ failed b hbatch t m hm with
      hin | ⟨m', hm'⟩
    · exact absurd hin (List.not_mem_nil _)
    · rw [hstep] at hm'
      cases hm'

/-- C8 witness instance: the all-missing response yields the enumerating
Permanent failure and `should_blacklist` accepts its message. -/
theorem c8_completeness_gate_witness :
    processInfo infoMissingAll = .error (missingMsg infoMissingAll) ∧
      should_blacklist (.pstr (missingMsg infoMissingAll)) = true :=
  ⟨(c8_completeness_gate infoMissingAll (by decide) (by decide)).1,
   (c8_completeness_gate infoMissingAll (by decide) (by decide)).2.2.1⟩

/-! ## C4: rate limit stops the batch, flushes partial results, exits 0 -/

theorem dlookup_eq_none {α : Type} :
    ∀ (l : List (String × α)) (k : String), k ∉ l.map Prod.fst →
      dlookup l k = none := by
  intro l
  induction l with
  | nil => intro k _; rfl
  | cons p rest ih =>
      intro k hk
      have hk0 : p.1 ≠ k := by
        intro he
        exact hk (by simp [he])
      have hrest : k ∉ rest.map Prod.fst := fun hm => hk (by simp [hm])
      show dlookup (p :: rest) k = none
      rcases p with ⟨k0, v0⟩
      unfold dlookup
      rw [ih k hrest]
      simp [hk0]

theorem dlookup_mem {α : Type} :
    ∀ (l : List (String × α)) (k : String) (v : α), dlookup l k = some v →
      (k, v) ∈ l := by
  intro l
  induction l with
  | nil => intro k v h; cases h
  | cons p rest ih =>
      intro k v h
      rcases p with ⟨k0, v0⟩
      unfold dlookup at h
      rcases hrest : dlookup rest k with _ | r <;> rw [hrest] at h
      · by_cases hk : (k0 == k) = true
        · rw [if_pos hk] at h
          injection h with hv
          subst hv
          have hkk : k0 = k := beq_iff_eq.mp hk
          subst hkk
          exact List.mem_cons_self _ _
        · rw [if_neg hk] at h
          cases h
      · injection h with hv
        exact hv ▸ List.mem_cons_of_mem _ (ih k r hrest)

theorem dlookup_eq_of_mem_nodup {α : Type} :
    ∀ (l : List (String × α)), (l.map Prod.fst).Nodup →
      ∀ (k : String) (v : α), (k, v) ∈ l → dlookup l k = some v := by
  intro l
  induction l with
  | nil => intro _ k v hm; cases hm
  | cons p rest ih =>
      intro hnd k v hm
      rcases p with ⟨k0, v0⟩
      have hnd' : (rest.map Prod.fst).Nodup := (List.nodup_cons.mp hnd).2
      have hk0 : k0 ∉ rest.map Prod.fst := (List.nodup_cons.mp hnd).1
      rcases List.mem_cons.mp hm with heq | hm'
      · injection heq with h1 h2
        subst h1
        subst h2
        unfold dlookup
        rw [dlookup_eq_none rest k hk0]
        simp
      · unfold dlookup
        rw [ih hnd' k v hm']
theorem collectSucc_mem (fetch : String → FetchOutcome) (l : List String)
    (t : String) (m : Metrics) (h : (t, m) ∈ collectSucc fetch l) :
    t ∈ l ∧ fetchTicker fetch t = .success m := by
  rcases List.mem_filterMap.mp h with ⟨a, ha, hstep⟩
  rcases hfa : fetchTicker fetch a with m0 | e | _ <;> rw [hfa] at hstep
  · injection hstep with hpair
    have hat : a = t := congrArg Prod.fst hpair
    have hmm : m0 = m := congrArg Prod.snd hpair
    subst hat
    exact ⟨ha, hmm ▸ hfa⟩
  · cases hstep
  · cases hstep

theorem collectSucc_mem_of (fetch : String → FetchOutcome) (l : List String)
    (t : String) (m : Metrics) (ht : t ∈ l)
    (hstep : fetchTicker fetch t = .success m) : (t, m) ∈ collectSucc fetch l :=
  List.mem_filterMap.mpr ⟨t, ht, by rw [hstep]⟩

theorem collectSucc_keys_sublist (fetch : String → FetchOutcome) :
    ∀ l : List String, ((collectSucc fetch l).map Prod.fst).Sublist l := by
  intro l
  induction l with
  | nil => simp [collectSucc]
  | cons t rest ih =>
      have hstep : collectSucc fetch (t :: rest) =
          (match fetchTicker fetch t with
            | .success m => some (t, m)
            | _ => none).toList ++ collectSucc fetch rest := by
        simp [collectSucc, List.filterMap_cons]
        rcases fetchTicker fetch t with m | e | _ <;> simp
      rw [hstep]
      rcases fetchTicker fetch t with m | e | _
      · simpa using List.Sublist.cons₂ t ih
      · simpa using List.Sublist.cons t ih
      · simpa using List.Sublist.cons t ih

theorem collectFail_mem (fetch : String → FetchOutcome) (l : List String)
    (t : String) (s : String) (h : (t, s) ∈ collectFail fetch l) :
    t ∈ l ∧ ∃ e, fetchTicker fetch t = .failure e ∧
      _check_rate_limit (.exc e) = false ∧ s = e.str := by
  rcases List.mem_filterMap.mp h with ⟨a, ha, hstep⟩
  rcases hfa : fetchTicker fetch a with m0 | e | _ <;> simp only [hfa] at hstep
  · cases hstep
  · by_cases hcr : _check_rate_limit (.exc e) = true
    · rw [if_pos hcr] at hstep
      cases hstep
    · rw [if_neg hcr] at hstep
      injection hstep with hpair
      have hat : a = t := congrArg Prod.fst hpair
      have hss : e.str = s := congrArg Prod.snd hpair
      subst hat
      exact ⟨ha, e, hfa, by simpa using hcr, hss.symm⟩
  · cases hstep

theorem not_mem_take_of_get?_ge {α : Type} [DecidableEq α] (l : List α)
    (hnd : l.Nodup) (i j : ℕ) (x : α) (hji : j ≤ i) (hget : l.get? i = some x) :
    x ∉ l.take j := by
  intro hmem
  rcases List.mem_iff_get?.mp hmem with ⟨n, hn⟩
  have hnj : n < j := by
    by_contra hge
    rw [List.get?_eq_none.mpr ?_] at hn
    · cases hn
    · calc (l.take j).length ≤ j := by simp [List.length_take_le]
        _ ≤ n := by omega
  have hln : l.get? n = some x := by
    rw [← List.get?_take hnj]
    exact hn
  have hilen : i < l.length := (List.get?_eq_some.mp hget).1
  have h2 : l.get? i = l.get? n := by rw [hget, hln]
  have := List.get?_inj hilen hnd h2
  omega

/-- The loop of `get_metrics_batch` when the first rate-limited ticker sits
at position `j`: everything before `j` is collected (successes and
non-rate-limited failures), nothing at or after `j` is, and the function
returns the collected results with the rate-limit flag set. -/
theorem gmbLoop_rl (fetch : String → FetchOutcome) :
    ∀ (tickers : List String) (j : ℕ) (succ : List (String × Metrics))
      (failed : List (String × String)),
      (∀ i, i < j → ∀ t, tickers.get? i = some t →
        rateLimitedStep (fetchTicker fetch t) = false) →
      (∀ t, tickers.get? j = some t →
        rateLimitedStep (fetchTicker fetch t) = true) →
      j < tickers.length →
      gmbLoop fetch tickers succ failed none =
        .ret (succ ++ collectSucc fetch (tickers.take j))
          (failed ++ collectFail fetch (tickers.take j)) true := by
  intro tickers
  induction tickers with
  | nil =>
      intro j succ failed _ _ hj
      simp at hj
  | cons tk rest ih =>
      intro j succ failed hpre hrl hj
      rcases j with _ | j'
      · have ht := hrl tk rfl
        rcases hstep : fetchTicker fetch tk with m0 | e | _
        · rw [hstep] at ht
          simp [rateLimitedStep] at ht
        · have hcr : _check_rate_limit (.exc e) = true := by
            simpa [rateLimitedStep, hstep] using ht
          have heq : gmbLoop fetch (tk :: rest) succ failed none =
              .ret succ failed true := by
            simp only [gmbLoop, hstep, hcr, if_true]
          rw [heq]
          simp [collectSucc, collectFail]
        · have heq : gmbLoop fetch (tk :: rest) succ failed none =
              .ret succ failed true := by
            simp only [gmbLoop, hstep]
          rw [heq]
          simp [collectSucc, collectFail]
      · have htk : rateLimitedStep (fetchTicker fetch tk) = false :=
          hpre 0 (by omega) tk rfl
        have hpre' : ∀ i, i < j' → ∀ t, rest.get? i = some t →
            rateLimitedStep (fetchTicker fetch t) = false :=
          fun i hi t hti => hpre (i + 1) (by omega) t (by simpa using hti)
        have hrl' : ∀ t, rest.get? j' = some t →
            rateLimitedStep (fetchTicker fetch t) = true :=
          fun t hti => hrl t (by simpa using hti)
        have hj' : j' < rest.length := by simpa using hj
        rcases hstep : fetchTicker fetch tk with m0 | e | _
        · have heq : gmbLoop fetch (tk :: rest) succ failed none =
              gmbLoop fetch rest (succ ++ [(tk, m0)]) failed none := by
            simp only [gmbLoop, hstep]
          rw [heq, ih j' (succ ++ [(tk, m0)]) failed hpre' hrl' hj']
          have hcs : collectSucc fetch ((tk :: rest).take (j' + 1)) =
              (tk, m0) :: collectSucc fetch (rest.take j') := by
            simp [collectSucc, List.take_succ_cons, List.filterMap_cons, hstep]
          have hcf : collectFail fetch ((tk :: rest).take (j' + 1)) =
              collectFail fetch (rest.take j') := by
            simp [collectFail, List.take_succ_cons, List.filterMap_cons, hstep]
          rw [hcs, hcf]
          simp
        · have hcr : _check_rate_limit (.exc e) = false := by
            simpa [rateLimitedStep, hstep] using htk
          have heq : gmbLoop fetch (tk :: rest) succ failed none =
              gmbLoop fetch rest succ (failed ++ [(tk, e.str)]) none := by
            simp only [gmbLoop, hstep, hcr, Bool.false_eq_true, if_false]
          rw [heq, ih j' succ (failed ++ [(tk, e.str)]) hpre' hrl' hj']
          have hcs : collectSucc fetch ((tk :: rest).take (j' + 1)) =
              collectSucc fetch (rest.take j') := by
            simp [collectSucc, List.take_succ_cons, List.filterMap_cons, hstep]
          have hcf : collectFail fetch ((tk :: rest).take (j' + 1)) =
              (tk, e.str) :: collectFail fetch (rest.take j') := by
            simp [collectFail, List.take_succ_cons, List.filterMap_cons, hstep, hcr]
          rw [hcs, hcf]
          simp
        · rw [hstep] at htk
          simp [rateLimitedStep] at htk

/-- The whole-cycle shape when the first batch's fetch hits a rate limit at
position `j` (and no earlier ticker does): the cycle flushes exactly the
first batch's collected results and exits via `sys.exit(0)`. -/
theorem process_updates_rl (fetch : String → FetchOutcome)
    (candidates : List Candidate) (j : ℕ)
    (hj : j < (candidates.take 50).length)
    (hpre : ∀ i, i < j → ∀ s, (candidates.take 50).get? i = some s →
      rateLimitedStep (fetchTicker fetch s.ticker) = false)
    (hrl : ∀ s, (candidates.take 50).get? j = some s →
      rateLimitedStep (fetchTicker fetch s.ticker) = true) :
    process_updates fetch 50 candidates =
      (CycleOutcome.rateLimitExit,
        ⟨batchSuccUpdates
          (collectSucc fetch (((candidates.take 50).map Candidate.ticker).take j))
          (candidates.take 50),
         batchFailUpdates
          (collectFail fetch (((candidates.take 50).map Candidate.ticker).take j))
          (candidates.take 50),
         batchBlacklist (batchFailUpdates
          (collectFail fetch (((candidates.take 50).map Candidate.ticker).take j))
          (candidates.take 50)),
         batchBlacklist (batchFailUpdates
          (collectFail fetch (((candidates.take 50).map Candidate.ticker).take j))
          (candidates.take 50))⟩) := by
  have hpre_t : ∀ i, i < j → ∀ t,
      ((candidates.take 50).map Candidate.ticker).get? i = some t →
      rateLimitedStep (fetchTicker fetch t) = false := by
    intro i hi t ht
    rw [List.get?_map] at ht
    rcases hs : (candidates.take 50).get? i with _ | s <;> rw [hs] at ht
    · cases ht
    · injection ht with ht
      exact ht ▸ hpre i hi s hs
  have hrl_t : ∀ t, ((candidates.take 50).map Candidate.ticker).get? j = some t →
      rateLimitedStep (fetchTicker fetch t) = true := by
    intro t ht
    rw [List.get?_map] at ht
    rcases hs : (candidates.take 50).get? j with _ | s <;> rw [hs] at ht
    · cases ht
    · injection ht with ht
      exact ht ▸ hrl s hs
  have hj_t : j < ((candidates.take 50).map Candidate.ticker).length := by
    simpa using hj
  have hgmb : get_metrics_batch fetch ((candidates.take 50).map Candidate.ticker) =
      .ret (collectSucc fetch (((candidates.take 50).map Candidate.ticker).take j))
        (collectFail fetch (((candidates.take 50).map Candidate.ticker).take j))
        true := by
    have := gmbLoop_rl fetch ((candidates.take 50).map Candidate.ticker) j [] []
      hpre_t hrl_t hj_t
    simpa [get_metrics_batch] using this
  have hpb : processBatch fetch (candidates.take 50) =
      .ok (batchSuccUpdates
          (collectSucc fetch (((candidates.take 50).map Candidate.ticker).take j))
          (candidates.take 50),
        batchFailUpdates
          (collectFail fetch (((candidates.take 50).map Candidate.ticker).take j))
          (candidates.take 50),
        batchBlacklist (batchFailUpdates
          (collectFail fetch (((candidates.take 50).map Candidate.ticker).take j))
          (candidates.take 50)),
        true) := by
    simp only [processBatch, hgmb]
  rcases hcand : candidates with _ | ⟨c0, cs⟩
  · rw [hcand] at hj
    simp at hj
  · rw [hcand] at hpb
    have hchunks : chunks 50 (c0 :: cs) =
        (c0 :: cs).take 50 :: chunksAux 50 cs.length ((c0 :: cs).drop 50) := rfl
    unfold process_updates
    rw [if_neg (by simp), if_neg (by decide), hchunks]
    unfold processChunks
    rw [hpb]
    simp [emptyLog]

/-- C4: when the fetch of the `j`-th ticker of the first batch is
classified RateLimited (429 response or a message containing `429`) and no
earlier ticker is, the cycle ends in the `sys.exit(0)` success exit; every
success collected before position `j` is flushed to the metrics write; a
failure write only ever names a ticker from before position `j`; and the
rate-limited ticker and every unfetched ticker (position `j` or later) gets
no failure increment.  (Tickers are assumed pairwise distinct within the
batch, as befits a stable identifier.) -/
theorem c4_rate_limit_batch (fetch : String → FetchOutcome)
    (candidates : List Candidate) (j : ℕ)
    (hnd : ((candidates.take 50).map Candidate.ticker).Nodup)
    (hj : j < (candidates.take 50).length)
    (hpre : ∀ i, i < j → ∀ s, (candidates.take 50).get? i = some s →
      rateLimitedStep (fetchTicker fetch s.ticker) = false)
    (hrl : ∀ s, (candidates.take 50).get? j = some s →
      rateLimitedStep (fetchTicker fetch s.ticker) = true) :
    (process_updates fetch 50 candidates).1 = CycleOutcome.rateLimitExit ∧
      (∀ i, i < j → ∀ s m, (candidates.take 50).get? i = some s →
        fetchTicker fetch s.ticker = .success m →
        SuccUpdate.mk s.rowIndex m ∈ (process_updates fetch 50 candidates).2.metricsWrites) ∧
      (∀ u, u ∈ (process_updates fetch 50 candidates).2.failureWrites →
        u.ticker ∈ ((candidates.take 50).map Candidate.ticker).take j) ∧
      (∀ i s, j ≤ i → (candidates.take 50).get? i = some s →
        ∀ u, u ∈ (process_updates fetch 50 candidates).2.failureWrites →
          u.ticker ≠ s.ticker) := by
  have hrun := process_updates_rl fetch candidates j hj hpre hrl
  have hfail_sub : ∀ u,
      u ∈ (process_updates fetch 50 candidates).2.failureWrites →
      u.ticker ∈ ((candidates.take 50).map Candidate.ticker).take j := by
    intro u hu
    rw [hrun] at hu
    rcases List.mem_filterMap.mp hu with ⟨s, _, hmap⟩
    rcases hdl : dlookup (collectFail fetch
        (((candidates.take 50).map Candidate.ticker).take j)) s.ticker with _ | e <;>
      rw [hdl] at hmap
    · cases hmap
    · injection hmap with hmap
      have hut : u.ticker = s.ticker := by rw [← hmap]
      have hmemF := dlookup_mem _ _ _ hdl
      have := (collectFail_mem fetch _ _ _ hmemF).1
      rw [hut]
      exact this
  refine ⟨by rw [hrun], ?_, hfail_sub, ?_⟩
  · intro i hi s m hget hsucc
    rw [hrun]
    have htick : (((candidates.take 50).map Candidate.ticker).take j).get? i =
        some s.ticker := by
      rw [List.get?_take hi, List.get?_map, hget]
      rfl
    have htmem : s.ticker ∈ ((candidates.take 50).map Candidate.ticker).take j :=
      List.get?_mem htick
    have hmemS : (s.ticker, m) ∈ collectSucc fetch
        (((candidates.take 50).map Candidate.ticker).take j) :=
      collectSucc_mem_of fetch _ _ _ htmem hsucc
    have hkeys_nd : ((collectSucc fetch
        (((candidates.take 50).map Candidate.ticker).take j)).map Prod.fst).Nodup := by
      have h1 := collectSucc_keys_sublist fetch
        (((candidates.take 50).map Candidate.ticker).take j)
      have h2 : (((candidates.take 50).map Candidate.ticker).take j).Sublist
          ((candidates.take 50).map Candidate.ticker) := List.take_sublist _ _
      exact (h1.trans h2).nodup hnd
    have hdl := dlookup_eq_of_mem_nodup _ hkeys_nd _ _ hmemS
    exact List.mem_filterMap.mpr ⟨s, List.get?_mem hget, by rw [hdl]; rfl⟩
  · intro i s hij hget u hu hut
    have hin := hfail_sub u hu
    rw [hut] at hin
    have htick : ((candidates.take 50).map Candidate.ticker).get? i = some s.ticker := by
      rw [List.get?_map, hget]
      rfl
    exact not_mem_take_of_get?_ge _ hnd i j s.ticker hij htick hin

/-- C4 witness instance: the 429 at position 1 exits the cycle with the
success exit, flushes `XAA`'s collected result, and gives no failure
increment to `YBB` or the unfetched `ZCC`. -/
theorem c4_rate_limit_batch_witness :
    (process_updates fetchC4 50 candC4).1 = CycleOutcome.rateLimitExit ∧
      (∀ i, i < 1 → ∀ s m, (candC4.take 50).get? i = some s →
        fetchTicker fetchC4 s.ticker = .success m →
        SuccUpdate.mk s.rowIndex m ∈ (process_updates fetchC4 50 candC4).2.metricsWrites) ∧
      (∀ u, u ∈ (process_updates fetchC4 50 candC4).2.failureWrites →
        u.ticker ∈ ((candC4.take 50).map Candidate.ticker).take 1) ∧
      (∀ i s, 1 ≤ i → (candC4.take 50).get? i = some s →
        ∀ u, u ∈ (process_updates fetchC4 50 candC4).2.failureWrites →
          u.ticker ≠ s.ticker) :=
  c4_rate_limit_batch fetchC4 candC4 1 (by decide) (by decide)
    (fun i hi s hs => by
      have hi0 : i = 0 := by omega
      subst hi0
      injection hs with h
      subst h
      decide)
    (fun s hs => by
      injection hs with h
      subst h
      decide)

end FinMet
